import Mathlib

/-!
Verification of the rewriting HTTP forward proxy (server.js).

JavaScript strings are modelled as lists of Unicode scalar values
(Lean Char).  The ECMAScript encodeURIComponent / decodeURIComponent
pair is embedded byte-faithfully (UTF-8 with percent escapes), and the
rewriting and forwarding logic of server.js is embedded over that
model.  The WHATWG URL resolver (the Node platform primitive new URL,
which is not part of this repository) is abstracted as a parameter
resolve : JSStr -> JSStr -> Option JSStr, returning the serialized
href of the resolved URL when resolution succeeds.
-/

namespace ProxyYuyu

/-- JavaScript string value: a list of Unicode scalar values. -/
abbrev JSStr := List Char

/-- Conversion from a Lean string literal to the model. -/
def jstr (s : String) : JSStr := s.data

/-- Percent character, written by code to stay clear of quoting pitfalls. -/
def pctChar : Char := Char.ofNat 37

/-- Apostrophe character. -/
def aposChar : Char := Char.ofNat 39

/-- Uppercase hexadecimal digit for a value below 16 (ECMAScript uses
uppercase in percent escapes). -/
def hexDigitChar (n : Nat) : Char :=
  if n < 10 then Char.ofNat (48 + n) else Char.ofNat (55 + n)

/-- Value of a hexadecimal digit character, accepting both cases. -/
def hexCharVal (c : Char) : Option Nat :=
  if 48 ≤ c.toNat ∧ c.toNat ≤ 57 then some (c.toNat - 48)
  else if 65 ≤ c.toNat ∧ c.toNat ≤ 70 then some (c.toNat - 55)
  else if 97 ≤ c.toNat ∧ c.toNat ≤ 102 then some (c.toNat - 87)
  else none

/-- UTF-8 bytes of a Unicode scalar value. -/
def utf8Bytes (c : Char) : List Nat :=
  let n := c.toNat
  if n < 0x80 then [n]
  else if n < 0x800 then [0xC0 + n / 64, 0x80 + n % 64]
  else if n < 0x10000 then [0xE0 + n / 4096, 0x80 + n / 64 % 64, 0x80 + n % 64]
  else [0xF0 + n / 262144, 0x80 + n / 4096 % 64, 0x80 + n / 64 % 64, 0x80 + n % 64]

/-- Percent escape of one byte: a percent sign followed by two uppercase
hexadecimal digits. -/
def escapeByte (b : Nat) : JSStr :=
  [pctChar, hexDigitChar (b / 16), hexDigitChar (b % 16)]

/-- Characters left unescaped by encodeURIComponent: ASCII alphanumerics
and - _ . ! ~ * apostrophe ( ). -/
def isUriUnreserved (c : Char) : Bool :=
  (65 ≤ c.toNat ∧ c.toNat ≤ 90) ∨ (97 ≤ c.toNat ∧ c.toNat ≤ 122) ∨
  (48 ≤ c.toNat ∧ c.toNat ≤ 57) ∨
  c ∈ ['-', '_', '.', '!', '~', '*', aposChar, '(', ')']

/-- Encoding of one character under encodeURIComponent: unreserved
characters pass through, every other character contributes the percent
escapes of its UTF-8 bytes. -/
def encChar (c : Char) : JSStr :=
  if isUriUnreserved c then [c] else ((utf8Bytes c).map escapeByte).flatten

/-- Embedding of ECMAScript encodeURIComponent on well-formed strings. -/
def encodeURIComponent (s : JSStr) : JSStr :=
  (s.map encChar).flatten

/-- Read n UTF-8 continuation bytes, each written as a percent escape,
folding their payloads onto the accumulator; fails on a malformed or
missing escape or a non-continuation byte. -/
def readCont : Nat → Nat → JSStr → Option (Nat × JSStr)
  | 0, acc, s => some (acc, s)
  | n + 1, acc, s =>
    match s with
    | p :: h1 :: h2 :: rest =>
      if p = pctChar then
        match hexCharVal h1, hexCharVal h2 with
        | some a, some b =>
          let byte := 16 * a + b
          if 0x80 ≤ byte ∧ byte < 0xC0 then
            readCont n (acc * 64 + (byte - 0x80)) rest
          else none
        | _, _ => none
      else none
    | _ => none

/-- Decode one percent-escape sequence.  The input is the text after the
leading percent sign; returns the decoded scalar and the remaining text.
Overlong encodings, stray or missing continuation bytes, surrogate code
points and values beyond U+10FFFF are rejected, as ECMAScript Decode
rejects them with URIError. -/
def decodeEscape (s : JSStr) : Option (Char × JSStr) :=
  match s with
  | h1 :: h2 :: rest =>
    match hexCharVal h1, hexCharVal h2 with
    | some a, some b =>
      let b0 := 16 * a + b
      if b0 < 0x80 then some (Char.ofNat b0, rest)
      else if b0 < 0xC0 then none
      else if b0 < 0xE0 then
        match readCont 1 (b0 - 0xC0) rest with
        | some (v, rest2) =>
          if 0x80 ≤ v ∧ v < 0xD800 then some (Char.ofNat v, rest2)
          else none
        | none => none
      else if b0 < 0xF0 then
        match readCont 2 (b0 - 0xE0) rest with
        | some (v, rest2) =>
          if 0x800 ≤ v ∧ (v < 0xD800 ∨ (0xE000 ≤ v ∧ v < 0x10000)) then
            some (Char.ofNat v, rest2)
          else none
        | none => none
      else if b0 < 0xF8 then
        match readCont 3 (b0 - 0xF0) rest with
        | some (v, rest2) =>
          if 0x10000 ≤ v ∧ v < 0x110000 then some (Char.ofNat v, rest2)
          else none
        | none => none
      else none
    | _, _ => none
  | _ => none

/-- Fuel-indexed decoding loop of ECMAScript decodeURIComponent: a
percent sign starts an escape sequence, any other character passes
through.  Fuel bounds the number of steps; one input character is
consumed per step at least, so the input length is always enough fuel. -/
def decodeAux : Nat → JSStr → Option JSStr
  | _, [] => some []
  | 0, _ :: _ => none
  | f + 1, c :: rest =>
    if c = pctChar then
      match decodeEscape rest with
      | some (d, rest2) =>
        match decodeAux f rest2 with
        | some t => some (d :: t)
        | none => none
      | none => none
    else
      match decodeAux f rest with
      | some t => some (c :: t)
      | none => none

/-- Embedding of ECMAScript decodeURIComponent, returning none where the
original throws URIError. -/
def decodeURIComponent (s : JSStr) : Option JSStr :=
  decodeAux s.length s

example : encodeURIComponent (jstr "http://x.test/a b") =
    jstr "http%3A%2F%2Fx.test%2Fa%20b" := by decide
example : decodeURIComponent (jstr "http%3A%2F%2Fx.test%2Fa%20b") =
    some (jstr "http://x.test/a b") := by decide
example : encodeURIComponent (jstr "é") = jstr "%C3%A9" := by decide
example : decodeURIComponent (jstr "%C3%A9") = some (jstr "é") := by decide
example : decodeURIComponent (jstr "%E3%81%82") = some (jstr "あ") := by decide
example : decodeURIComponent (jstr "%F0%9F%98%80") = some (jstr "😀") := by decide
example : decodeURIComponent (jstr "%") = none := by decide
example : decodeURIComponent (jstr "%C3") = none := by decide
example : decodeURIComponent (jstr "%ED%A0%80") = none := by decide

/-- Hexadecimal digits round-trip for values below 16. -/
lemma hexCharVal_hexDigitChar (n : Nat) (h : n < 16) :
    hexCharVal (hexDigitChar n) = some n := by
  interval_cases n <;> decide

/-- Range of a Char as a Unicode scalar value. -/
lemma char_toNat_valid (c : Char) :
    c.toNat < 0xD800 ∨ (0xE000 ≤ c.toNat ∧ c.toNat < 0x110000) := by
  have h := c.valid
  unfold UInt32.isValidChar Nat.isValidChar at h
  exact h

/-- Unreserved characters are never the percent sign. -/
lemma unreserved_ne_pct (c : Char) (h : isUriUnreserved c = true) : c ≠ pctChar := by
  intro heq
  rw [heq] at h
  exact absurd h (by decide)

/-- Reading one escaped continuation byte consumes its three characters
and folds its payload onto the accumulator. -/
lemma readCont_step (n acc b : Nat) (hb1 : 0x80 ≤ b) (hb2 : b < 0xC0) (t : JSStr) :
    readCont (n + 1) acc (escapeByte b ++ t) =
      readCont n (acc * 64 + (b - 0x80)) t := by
  have e1 : hexCharVal (hexDigitChar (b / 16)) = some (b / 16) :=
    hexCharVal_hexDigitChar _ (by omega)
  have e2 : hexCharVal (hexDigitChar (b % 16)) = some (b % 16) :=
    hexCharVal_hexDigitChar _ (by omega)
  have e3 : 16 * (b / 16) + b % 16 = b := by omega
  simp only [escapeByte, List.cons_append, readCont, if_pos rfl, e1, e2, e3]
  simp [hb1, hb2]

/-- Decoding the escape of a one-byte (ASCII) encoding. -/
lemma decodeEscape_enc1 (n : Nat) (h : n < 0x80) (t : JSStr) :
    decodeEscape (hexDigitChar (n / 16) :: hexDigitChar (n % 16) :: t) =
      some (Char.ofNat n, t) := by
  have e1 : hexCharVal (hexDigitChar (n / 16)) = some (n / 16) :=
    hexCharVal_hexDigitChar _ (by omega)
  have e2 : hexCharVal (hexDigitChar (n % 16)) = some (n % 16) :=
    hexCharVal_hexDigitChar _ (by omega)
  have e3 : 16 * (n / 16) + n % 16 = n := by omega
  simp only [decodeEscape, e1, e2, e3]
  simp [h]

/-- Decoding the escape of a two-byte UTF-8 encoding. -/
lemma decodeEscape_enc2 (n : Nat) (h1 : 0x80 ≤ n) (h2 : n < 0x800) (t : JSStr) :
    decodeEscape (hexDigitChar ((0xC0 + n / 64) / 16) ::
      hexDigitChar ((0xC0 + n / 64) % 16) :: (escapeByte (0x80 + n % 64) ++ t)) =
      some (Char.ofNat n, t) := by
  have e1 : hexCharVal (hexDigitChar ((0xC0 + n / 64) / 16)) = some ((0xC0 + n / 64) / 16) :=
    hexCharVal_hexDigitChar _ (by omega)
  have e2 : hexCharVal (hexDigitChar ((0xC0 + n / 64) % 16)) = some ((0xC0 + n / 64) % 16) :=
    hexCharVal_hexDigitChar _ (by omega)
  have e3 : 16 * ((0xC0 + n / 64) / 16) + (0xC0 + n / 64) % 16 = 0xC0 + n / 64 := by omega
  have hr : readCont 1 (0xC0 + n / 64 - 0xC0) (escapeByte (0x80 + n % 64) ++ t) =
      some ((0xC0 + n / 64 - 0xC0) * 64 + (0x80 + n % 64 - 0x80), t) := by
    rw [readCont_step _ _ _ (by omega) (by omega)]
    rfl
  have e4 : (0xC0 + n / 64 - 0xC0) * 64 + (0x80 + n % 64 - 0x80) = n := by omega
  rw [e4] at hr
  simp only [decodeEscape, e1, e2, e3, hr]
  have c1 : ¬ (0xC0 + n / 64 < 0x80) := by omega
  have c2 : ¬ (0xC0 + n / 64 < 0xC0) := by omega
  have c3 : 0xC0 + n / 64 < 0xE0 := by omega
  simp [c1, c2, c3, h1, h2]
  omega

/-- Decoding the escape of a three-byte UTF-8 encoding. -/
lemma decodeEscape_enc3 (n : Nat) (h1 : 0x800 ≤ n) (h2 : n < 0x10000)
    (h3 : n < 0xD800 ∨ 0xE000 ≤ n) (t : JSStr) :
    decodeEscape (hexDigitChar ((0xE0 + n / 4096) / 16) ::
      hexDigitChar ((0xE0 + n / 4096) % 16) ::
      (escapeByte (0x80 + n / 64 % 64) ++ (escapeByte (0x80 + n % 64) ++ t))) =
      some (Char.ofNat n, t) := by
  have e1 : hexCharVal (hexDigitChar ((0xE0 + n / 4096) / 16)) =
      some ((0xE0 + n / 4096) / 16) := hexCharVal_hexDigitChar _ (by omega)
  have e2 : hexCharVal (hexDigitChar ((0xE0 + n / 4096) % 16)) =
      some ((0xE0 + n / 4096) % 16) := hexCharVal_hexDigitChar _ (by omega)
  have e3 : 16 * ((0xE0 + n / 4096) / 16) + (0xE0 + n / 4096) % 16 = 0xE0 + n / 4096 := by
    omega
  have hr : readCont 2 (0xE0 + n / 4096 - 0xE0)
      (escapeByte (0x80 + n / 64 % 64) ++ (escapeByte (0x80 + n % 64) ++ t)) =
      some (n, t) := by
    rw [readCont_step _ _ _ (by omega) (by omega)]
    rw [readCont_step _ _ _ (by omega) (by omega)]
    have e : ((0xE0 + n / 4096 - 0xE0) * 64 + (0x80 + n / 64 % 64 - 0x80)) * 64 +
        (0x80 + n % 64 - 0x80) = n := by omega
    rw [e]
    rfl
  simp only [decodeEscape, e1, e2, e3, hr]
  have c1 : ¬ (0xE0 + n / 4096 < 0x80) := by omega
  have c2 : ¬ (0xE0 + n / 4096 < 0xC0) := by omega
  have c3 : ¬ (0xE0 + n / 4096 < 0xE0) := by omega
  have c4 : 0xE0 + n / 4096 < 0xF0 := by omega
  simp [c1, c2, c3, c4, h1, h2]
  omega

/-- Decoding the escape of a four-byte UTF-8 encoding. -/
lemma decodeEscape_enc4 (n : Nat) (h1 : 0x10000 ≤ n) (h2 : n < 0x110000) (t : JSStr) :
    decodeEscape (hexDigitChar ((0xF0 + n / 262144) / 16) ::
      hexDigitChar ((0xF0 + n / 262144) % 16) ::
      (escapeByte (0x80 + n / 4096 % 64) ++ (escapeByte (0x80 + n / 64 % 64) ++
        (escapeByte (0x80 + n % 64) ++ t)))) =
      some (Char.ofNat n, t) := by
  have e1 : hexCharVal (hexDigitChar ((0xF0 + n / 262144) / 16)) =
      some ((0xF0 + n / 262144) / 16) := hexCharVal_hexDigitChar _ (by omega)
  have e2 : hexCharVal (hexDigitChar ((0xF0 + n / 262144) % 16)) =
      some ((0xF0 + n / 262144) % 16) := hexCharVal_hexDigitChar _ (by omega)
  have e3 : 16 * ((0xF0 + n / 262144) / 16) + (0xF0 + n / 262144) % 16 =
      0xF0 + n / 262144 := by omega
  have hr : readCont 3 (0xF0 + n / 262144 - 0xF0)
      (escapeByte (0x80 + n / 4096 % 64) ++ (escapeByte (0x80 + n / 64 % 64) ++
        (escapeByte (0x80 + n % 64) ++ t))) = some (n, t) := by
    rw [readCont_step _ _ _ (by omega) (by omega)]
    rw [readCont_step _ _ _ (by omega) (by omega)]
    rw [readCont_step _ _ _ (by omega) (by omega)]
    have e : (((0xF0 + n / 262144 - 0xF0) * 64 + (0x80 + n / 4096 % 64 - 0x80)) * 64 +
        (0x80 + n / 64 % 64 - 0x80)) * 64 + (0x80 + n % 64 - 0x80) = n := by omega
    rw [e]
    rfl
  simp only [decodeEscape, e1, e2, e3, hr]
  have c1 : ¬ (0xF0 + n / 262144 < 0x80) := by omega
  have c2 : ¬ (0xF0 + n / 262144 < 0xC0) := by omega
  have c3 : ¬ (0xF0 + n / 262144 < 0xE0) := by omega
  have c4 : ¬ (0xF0 + n / 262144 < 0xF0) := by omega
  have c5 : 0xF0 + n / 262144 < 0xF8 := by omega
  simp [c1, c2, c3, c4, c5, h1, h2]

/-- Decoding loop inverts the encoding, given enough fuel. -/
lemma decodeAux_encode (s : JSStr) : ∀ f, s.length ≤ f →
    decodeAux f (encodeURIComponent s) = some s := by
  induction s with
  | nil =>
    intro f _
    cases f <;> rfl
  | cons c t ih =>
    intro f hf
    cases f with
    | zero => simp at hf
    | succ f' =>
      have hlen : t.length ≤ f' := by
        simp only [List.length_cons] at hf
        omega
      have henc : encodeURIComponent (c :: t) = encChar c ++ encodeURIComponent t := by
        simp [encodeURIComponent]
      rw [henc]
      by_cases hu : isUriUnreserved c
      · rw [show encChar c = [c] from by simp [encChar, hu]]
        have hne : c ≠ pctChar := unreserved_ne_pct c hu
        simp only [List.cons_append, List.nil_append, decodeAux, if_neg hne,
          List.append_eq]
        rw [ih f' hlen]
      · rw [show encChar c = ((utf8Bytes c).map escapeByte).flatten from by
          simp [encChar, hu]]
        have hval := char_toNat_valid c
        by_cases b1 : c.toNat < 0x80
        · rw [show utf8Bytes c = [c.toNat] from by simp [utf8Bytes, b1]]
          rw [show ([c.toNat].map escapeByte).flatten = escapeByte c.toNat from by simp]
          rw [show escapeByte c.toNat = pctChar :: hexDigitChar (c.toNat / 16) ::
            hexDigitChar (c.toNat % 16) :: [] from rfl]
          simp only [List.cons_append, List.nil_append, decodeAux, eq_self_iff_true,
            if_true, List.append_eq]
          rw [decodeEscape_enc1 c.toNat b1, Char.ofNat_toNat]
          simp only [ih f' hlen]
        · by_cases b2 : c.toNat < 0x800
          · rw [show utf8Bytes c = [0xC0 + c.toNat / 64, 0x80 + c.toNat % 64] from by
              simp [utf8Bytes, b1, b2]]
            simp only [List.map_cons, List.map_nil, List.flatten_cons, List.flatten_nil,
              List.append_nil, List.append_assoc]
            rw [show escapeByte (0xC0 + c.toNat / 64) = pctChar ::
              hexDigitChar ((0xC0 + c.toNat / 64) / 16) ::
              hexDigitChar ((0xC0 + c.toNat / 64) % 16) :: [] from rfl]
            simp only [List.cons_append, List.nil_append, decodeAux, eq_self_iff_true,
            if_true, List.append_eq]
            rw [decodeEscape_enc2 c.toNat (by omega) b2, Char.ofNat_toNat]
            simp only [ih f' hlen]
          · by_cases b3 : c.toNat < 0x10000
            · rw [show utf8Bytes c = [0xE0 + c.toNat / 4096, 0x80 + c.toNat / 64 % 64,
                0x80 + c.toNat % 64] from by simp [utf8Bytes, b1, b2, b3]]
              simp only [List.map_cons, List.map_nil, List.flatten_cons, List.flatten_nil,
                List.append_nil, List.append_assoc]
              rw [show escapeByte (0xE0 + c.toNat / 4096) = pctChar ::
                hexDigitChar ((0xE0 + c.toNat / 4096) / 16) ::
                hexDigitChar ((0xE0 + c.toNat / 4096) % 16) :: [] from rfl]
              simp only [List.cons_append, List.nil_append, decodeAux, eq_self_iff_true,
            if_true, List.append_eq]
              rw [decodeEscape_enc3 c.toNat (by omega) b3 (by omega), Char.ofNat_toNat]
              simp only [ih f' hlen]
            · rw [show utf8Bytes c = [0xF0 + c.toNat / 262144, 0x80 + c.toNat / 4096 % 64,
                0x80 + c.toNat / 64 % 64, 0x80 + c.toNat % 64] from by
                  simp [utf8Bytes, b1, b2, b3]]
              simp only [List.map_cons, List.map_nil, List.flatten_cons, List.flatten_nil,
                List.append_nil, List.append_assoc]
              rw [show escapeByte (0xF0 + c.toNat / 262144) = pctChar ::
                hexDigitChar ((0xF0 + c.toNat / 262144) / 16) ::
                hexDigitChar ((0xF0 + c.toNat / 262144) % 16) :: [] from rfl]
              simp only [List.cons_append, List.nil_append, decodeAux, eq_self_iff_true,
            if_true, List.append_eq]
              rw [decodeEscape_enc4 c.toNat (by omega) (by omega), Char.ofNat_toNat]
              simp only [ih f' hlen]

/-- Each character encodes to at least one character. -/
lemma encChar_length_pos (c : Char) : 1 ≤ (encChar c).length := by
  by_cases hu : isUriUnreserved c
  · simp [encChar, hu]
  · simp only [encChar, hu, if_neg, Bool.false_eq_true, not_false_eq_true]
    have hval := char_toNat_valid c
    by_cases b1 : c.toNat < 0x80
    · simp [utf8Bytes, b1, escapeByte]
    · by_cases b2 : c.toNat < 0x800
      · simp [utf8Bytes, b1, b2, escapeByte]
      · by_cases b3 : c.toNat < 0x10000
        · simp [utf8Bytes, b1, b2, b3, escapeByte]
        · simp [utf8Bytes, b1, b2, b3, escapeByte]

/-- Encoding never shortens a string. -/
lemma length_le_encode (s : JSStr) : s.length ≤ (encodeURIComponent s).length := by
  induction s with
  | nil => simp [encodeURIComponent]
  | cons c t ih =>
    have henc : encodeURIComponent (c :: t) = encChar c ++ encodeURIComponent t := by
      simp [encodeURIComponent]
    rw [henc]
    simp only [List.length_append, List.length_cons]
    have := encChar_length_pos c
    omega

/-- Round trip: decodeURIComponent inverts encodeURIComponent on every
well-formed string. -/
theorem decode_encode (s : JSStr) :
    decodeURIComponent (encodeURIComponent s) = some s := by
  unfold decodeURIComponent
  exact decodeAux_encode s _ (length_le_encode s)

/-- Embedding of the JavaScript String startsWith test. -/
def jsStartsWith (p s : JSStr) : Bool := List.isPrefixOf p s

/-- Fixed proxy path prefix used by server.js for every rewritten URL. -/
def proxyPrefix : JSStr := jstr "/proxy?url="

/-- Rewriting of one href, src or action attribute value, as done at
lines 61 to 67 of server.js: a non-empty value that does not start with
the data: scheme is resolved against the base URL and replaced with the
proxied form; resolution failure leaves the value unchanged. -/
def rewriteAttrValue (resolve : JSStr → JSStr → Option JSStr) (base v : JSStr) : JSStr :=
  if 0 < v.length ∧ jsStartsWith (jstr "data:") v = false then
    match resolve v base with
    | some abs => proxyPrefix ++ encodeURIComponent abs
    | none => v
  else v

/-- Replacement applied to one regex match of url followed by optional
whitespace, a parenthesis, an optional quote and a path, in a style
attribute or a CSS stylesheet (lines 107 to 119 and 203 to 214 of
server.js).  The raw match text is reproduced when the path starts with
the four characters http, with two slashes, or with data:, and on
resolution failure. -/
def cssUrlReplace (resolve : JSStr → JSStr → Option JSStr)
    (base ws quote path : JSStr) : JSStr :=
  let matchText := jstr "url" ++ ws ++ jstr "(" ++ quote ++ path ++ quote ++ jstr ")"
  if jsStartsWith (jstr "http") path ∨ jsStartsWith (jstr "//") path ∨
      jsStartsWith (jstr "data:") path then matchText
  else
    match resolve path base with
    | some abs =>
      jstr "url(" ++ quote ++ (proxyPrefix ++ encodeURIComponent abs) ++ quote ++ jstr ")"
    | none => matchText

/-- Form method normalization of server.js line 71: the present method
attribute when truthy, the string GET otherwise. -/
def normalizeFormMethodServer (m : Option JSStr) : JSStr :=
  match m with
  | some v => if v = [] then jstr "GET" else v
  | none => jstr "GET"

/-- Form method normalization of the part_000 revision line 71: the
present method attribute uppercased when truthy, the string GET
otherwise. -/
def normalizeFormMethodPart0 (m : Option JSStr) : JSStr :=
  match m with
  | some v => if v = [] then jstr "GET" else v.map Char.toUpper
  | none => jstr "GET"

/-- ASCII whitespace recognized by the model of String trim and of the
regex whitespace class. -/
def isJsWs (c : Char) : Bool :=
  c = ' ' ∨ c = Char.ofNat 9 ∨ c = Char.ofNat 10 ∨ c = Char.ofNat 13 ∨
  c = Char.ofNat 11 ∨ c = Char.ofNat 12

/-- Embedding of JavaScript String trim. -/
def trimWs (s : JSStr) : JSStr :=
  ((s.dropWhile isJsWs).reverse.dropWhile isJsWs).reverse

/-- Embedding of JavaScript String split on a single separator
character: split of the empty string is a list holding one empty
string, adjacent separators produce empty fields. -/
def splitOnChar (sep : Char) : JSStr → List JSStr
  | [] => [[]]
  | c :: t =>
    match splitOnChar sep t with
    | [] => [[]]
    | h :: r => if c = sep then [] :: h :: r else (c :: h) :: r

/-- Embedding of JavaScript String split on the regex of one or more
whitespace characters: maximal whitespace runs separate the fields, a
boundary run contributes an empty field at that end. -/
def splitWsRuns : JSStr → List JSStr
  | [] => [[]]
  | c :: t =>
    match splitWsRuns t with
    | [] => [[]]
    | h :: r =>
      if isJsWs c then
        match t with
        | [] => [] :: h :: r
        | t0 :: _ => if isJsWs t0 then h :: r else [] :: h :: r
      else (c :: h) :: r

example : splitOnChar ',' (jstr "a,,b") = [jstr "a", [], jstr "b"] := by decide
example : splitOnChar ',' [] = [[]] := by decide
example : splitWsRuns (jstr "a.png 1x") = [jstr "a.png", jstr "1x"] := by decide
example : splitWsRuns (jstr "a.png  2x w") = [jstr "a.png", jstr "2x", jstr "w"] := by decide
example : splitWsRuns [] = [[]] := by decide
example : trimWs (jstr "  a b  ") = jstr "a b" := by decide

/-- Rewriting of one srcset candidate entry, as in lines 82 to 97 of
server.js: trim the entry, split it on whitespace into the path and the
descriptor tokens, pass data: paths through unchanged (returning the
untrimmed entry), otherwise resolve the path and emit the proxied path,
one space and the rejoined descriptor, trimmed; resolution failure
returns the untrimmed entry. -/
def srcsetEntry (resolve : JSStr → JSStr → Option JSStr) (base source : JSStr) : JSStr :=
  let t := trimWs source
  let parts := splitWsRuns t
  let path := parts.headD []
  let descriptor := List.intercalate (jstr " ") parts.tail
  if jsStartsWith (jstr "data:") path then source
  else
    match resolve path base with
    | some abs =>
      trimWs ((proxyPrefix ++ encodeURIComponent abs) ++ jstr " " ++ descriptor)
    | none => source

/-- Rewriting of a whole srcset attribute value (lines 82 to 98 of
server.js): split on commas, rewrite each entry, rejoin with a comma
and a space. -/
def srcsetRewrite (resolve : JSStr → JSStr → Option JSStr) (base s : JSStr) : JSStr :=
  List.intercalate (jstr ", ") ((splitOnChar ',' s).map (srcsetEntry resolve base))

/-- Lowercasing of a header name, as JavaScript toLowerCase on ASCII. -/
def toLowerStr (s : JSStr) : JSStr := s.map Char.toLower

/-- Headers excluded from relay at line 183 of server.js. -/
def excludedHeader (n : JSStr) : Bool :=
  n = jstr "connection" ∨ n = jstr "content-encoding" ∨
  n = jstr "transfer-encoding" ∨ n = jstr "content-length"

/-- Relay of upstream response headers (lines 181 to 186 of server.js):
every header whose lowercased name is not framing-specific is copied.
The fetch Headers object presents each header name once, so the forEach
with setHeader is a filter over the header list. -/
def relayHeaders (hs : List (JSStr × JSStr)) : List (JSStr × JSStr) :=
  hs.filter fun h => ¬ excludedHeader (toLowerStr h.1) = true

/-- Parsed URL as far as the handler inspects it: the scheme with the
trailing colon, as the protocol property of the WHATWG URL class. -/
structure ParsedUrl where
  protocol : JSStr
deriving DecidableEq

/-- Outcome of the upstream fetch: a response status, or a failure
carrying the name property of the thrown error. -/
inductive FetchResult where
  | ok (status : Nat)
  | err (errName : JSStr)
deriving DecidableEq

/-- Observable outcome of the proxy handler: the response status and
whether the upstream fetch was performed. -/
structure ProxyOutcome where
  status : Nat
  fetched : Bool
deriving DecidableEq

/-- Embedding of the app.all proxy handler of server.js (lines 133 to
236), restricted to its status and fetch behaviour: missing or falsy
url parameter gives 400 before any fetch, an unparseable url gives 400
before any fetch, a scheme other than http or https gives 403 before
any fetch; otherwise the fetch runs and the handler mirrors the
upstream status on success, answers 504 when the error name is
TimeoutError or AbortError, and 500 on any other error. -/
def handleProxy (urlParam : Option JSStr) (parseUrl : JSStr → Option ParsedUrl)
    (fetchResult : FetchResult) : ProxyOutcome :=
  match urlParam with
  | none => ⟨400, false⟩
  | some u =>
    if u = [] then ⟨400, false⟩
    else
      match parseUrl u with
      | none => ⟨400, false⟩
      | some p =>
        if p.protocol ≠ jstr "http:" ∧ p.protocol ≠ jstr "https:" then ⟨403, false⟩
        else
          match fetchResult with
          | .ok st => ⟨st, true⟩
          | .err nm =>
            ⟨if nm = jstr "TimeoutError" ∨ nm = jstr "AbortError" then 504 else 500, true⟩

/-- HTML document tree as cheerio exposes it: elements with a tag name,
an attribute list and children, and text nodes. -/
inductive HtmlNode where
  | elem (tag : JSStr) (attrs : List (JSStr × JSStr)) (children : List HtmlNode)
  | text (content : JSStr)

/-- Lookup of an attribute value. -/
def getAttr (attrs : List (JSStr × JSStr)) (name : JSStr) : Option JSStr :=
  (attrs.find? fun a => a.1 = name).map (fun a => a.2)

/-- Setting an attribute: replace the first binding of the name, append
when absent. -/
def setAttr : List (JSStr × JSStr) → JSStr → JSStr → List (JSStr × JSStr)
  | [], n, v => [(n, v)]
  | a :: t, n, v => if a.1 = n then (n, v) :: t else a :: setAttr t n v

/-- Attribute chosen by the tag switch of lines 36 to 56 of server.js;
the empty name models the untouched default branch. -/
def attrForTag (tag : JSStr) : JSStr :=
  if tag = jstr "a" then jstr "href"
  else if tag = jstr "form" then jstr "action"
  else if tag = jstr "img" ∨ tag = jstr "script" ∨ tag = jstr "video" ∨
      tag = jstr "audio" ∨ tag = jstr "iframe" ∨ tag = jstr "source" then jstr "src"
  else if tag = jstr "link" then jstr "href"
  else []

/-- Selector of line 28 of server.js: the listed tags, stylesheet links,
and any element carrying a style attribute. -/
def matchesSelector (tag : JSStr) (attrs : List (JSStr × JSStr)) : Bool :=
  tag = jstr "a" ∨ tag = jstr "form" ∨ tag = jstr "img" ∨ tag = jstr "script" ∨
  tag = jstr "video" ∨ tag = jstr "audio" ∨ tag = jstr "source" ∨ tag = jstr "iframe" ∨
  (tag = jstr "link" ∧ getAttr attrs (jstr "rel") = some (jstr "stylesheet")) ∨
  (getAttr attrs (jstr "style")).isSome

/-- Attribute rewriting for one matched element (lines 30 to 122 of
server.js): the tag-selected URL attribute, then the srcset attribute
for img and source, then the style attribute.  The scan of a style
attribute value for url references is abstracted as the parameter
styleT, applied exactly where the source applies its regex replace. -/
def rewriteElemAttrs (resolve : JSStr → JSStr → Option JSStr) (styleT : JSStr → JSStr)
    (base tag : JSStr) (attrs : List (JSStr × JSStr)) : List (JSStr × JSStr) :=
  let attrName := attrForTag tag
  let a1 :=
    match getAttr attrs attrName with
    | some v =>
      if 0 < v.length ∧ jsStartsWith (jstr "data:") v = false then
        match resolve v base with
        | some abs =>
          let a := setAttr attrs attrName (proxyPrefix ++ encodeURIComponent abs)
          if tag = jstr "form" then
            setAttr a (jstr "method") (normalizeFormMethodServer (getAttr a (jstr "method")))
          else a
        | none => attrs
      else attrs
    | none => attrs
  let a2 :=
    if tag = jstr "img" ∨ tag = jstr "source" then
      match getAttr a1 (jstr "srcset") with
      | some sv =>
        if 0 < sv.length then setAttr a1 (jstr "srcset") (srcsetRewrite resolve base sv)
        else a1
      | none => a1
    else a1
  match getAttr a2 (jstr "style") with
  | some st => if 0 < st.length then setAttr a2 (jstr "style") (styleT st) else a2
  | none => a2

/-- Traversal applying the per-element rewriting to every element that
the selector matches, in document order. -/
def rewriteNodeList (resolve : JSStr → JSStr → Option JSStr) (styleT : JSStr → JSStr)
    (base : JSStr) : List HtmlNode → List HtmlNode
  | [] => []
  | .elem tag attrs children :: rest =>
    .elem tag
      (if matchesSelector tag attrs then rewriteElemAttrs resolve styleT base tag attrs
       else attrs)
      (rewriteNodeList resolve styleT base children) :: rewriteNodeList resolve styleT base rest
  | .text s :: rest => .text s :: rewriteNodeList resolve styleT base rest

/-- Removal of every base element from the tree (line 125 of server.js). -/
def removeBaseList : List HtmlNode → List HtmlNode
  | [] => []
  | .elem tag attrs children :: rest =>
    if tag = jstr "base" then removeBaseList rest
    else .elem tag attrs (removeBaseList children) :: removeBaseList rest
  | .text s :: rest => .text s :: removeBaseList rest

/-- Test for the presence of a base element anywhere in the forest. -/
def containsBase : List HtmlNode → Bool
  | [] => false
  | .elem tag _ children :: rest =>
    tag = jstr "base" ∨ containsBase children = true ∨ containsBase rest = true
  | .text _ :: rest => containsBase rest

/-- Embedding of rewriteHtmlContent of server.js on the parsed tree:
rewrite the matched elements, then remove every base element; the
serialization back to text preserves the tree. -/
def rewriteHtmlContent (resolve : JSStr → JSStr → Option JSStr) (styleT : JSStr → JSStr)
    (base : JSStr) (doc : List HtmlNode) : List HtmlNode :=
  removeBaseList (rewriteNodeList resolve styleT base doc)

/-- Concrete WHATWG resolver fragment used by the closed witnesses: the
listed reference and base pairs resolve exactly as the Node URL class
resolves them (an absolute reference serializes to itself, the empty
reference to the base, a root-relative or document-relative path against
the directory of the base). -/
def demoResolve (r b : JSStr) : Option JSStr :=
  if jsStartsWith (jstr "http://") r ∨ jsStartsWith (jstr "https://") r then some r
  else if b = jstr "http://x.test/page" ∨ b = jstr "http://x.test" then
    if r = [] then some b
    else if jsStartsWith (jstr "/") r then some (jstr "http://x.test" ++ r)
    else some (jstr "http://x.test/" ++ r)
  else if b = jstr "http://x.test/css/a.css" then
    if r = jstr "../img/bg.png" then some (jstr "http://x.test/img/bg.png")
    else if r = [] then some b
    else none
  else none

/-- Concrete WHATWG URL parser fragment used by the closed witnesses:
the protocol of an absolute URL, none for text without a scheme. -/
def demoParse (s : JSStr) : Option ParsedUrl :=
  if jsStartsWith (jstr "https://") s then some ⟨jstr "https:"⟩
  else if jsStartsWith (jstr "http://") s then some ⟨jstr "http:"⟩
  else if jsStartsWith (jstr "ftp://") s then some ⟨jstr "ftp:"⟩
  else none

/-- Prefix transfer: a string prefixed by a list is prefixed by that
list's own prefixes. -/
lemma jsStartsWith_trans {p q s : JSStr} (hpq : p.IsPrefix q)
    (h : jsStartsWith q s = true) : jsStartsWith p s = true := by
  rw [jsStartsWith, List.isPrefixOf_iff_prefix] at h ⊢
  exact hpq.trans h

/-- Strings starting with http do not start with data:. -/
lemma startsWith_http_not_data {v : JSStr}
    (h : jsStartsWith (jstr "http") v = true) :
    jsStartsWith (jstr "data:") v = false := by
  rw [jsStartsWith, List.isPrefixOf_iff_prefix] at h
  obtain ⟨t, ht⟩ := h
  rw [show jstr "http" = 'h' :: jstr "ttp" from rfl] at ht
  cases hv : v with
  | nil => simp [hv] at ht
  | cons c w =>
    rw [hv] at ht
    have hc : c = 'h' := by
      have := congrArg (fun l => List.head? l) ht
      simpa using this.symm
    rw [jsStartsWith, show jstr "data:" = 'd' :: jstr "ata:" from rfl, hc]
    simp [List.isPrefixOf]

/-- Strings starting with http are nonempty. -/
lemma startsWith_http_ne_nil {v : JSStr}
    (h : jsStartsWith (jstr "http") v = true) : v ≠ [] := by
  intro hv
  rw [hv] at h
  simp [jsStartsWith, jstr, List.isPrefixOf] at h

/-- A proxied URL never starts with data:, its first character being a
slash. -/
lemma proxied_not_data (x : JSStr) :
    jsStartsWith (jstr "data:") (proxyPrefix ++ x) = false := by
  rw [show proxyPrefix = '/' :: jstr "proxy?url=" from rfl]
  rw [show jstr "data:" = 'd' :: jstr "ata:" from rfl]
  simp [jsStartsWith, List.isPrefixOf]

/-- A proxied URL is nonempty. -/
lemma proxied_ne_nil (x : JSStr) : proxyPrefix ++ x ≠ [] := by
  rw [show proxyPrefix = '/' :: jstr "proxy?url=" from rfl]
  simp

/-- C1: for every reference and base on which URL resolution succeeds
(the reference being nonempty and not a data: URI, so that the rewriter
takes its rewriting branch), the rewritten attribute value is the fixed
proxy path followed by the percent-encoding of the resolved URL, and
percent-decoding the query value recovers the resolved URL exactly. -/
theorem rewrite_decodes_to_resolved
    (resolve : JSStr → JSStr → Option JSStr) (r b a : JSStr)
    (h1 : r ≠ []) (h2 : jsStartsWith (jstr "data:") r = false)
    (h3 : resolve r b = some a) :
    rewriteAttrValue resolve b r = proxyPrefix ++ encodeURIComponent a ∧
    decodeURIComponent ((rewriteAttrValue resolve b r).drop proxyPrefix.length) =
      some a := by
  have hr : rewriteAttrValue resolve b r = proxyPrefix ++ encodeURIComponent a := by
    unfold rewriteAttrValue
    rw [if_pos ⟨List.length_pos.mpr h1, h2⟩, h3]
  refine ⟨hr, ?_⟩
  rw [hr, List.drop_left]
  exact decode_encode a

/-- C1 witness at a concrete reference and base. -/
theorem rewrite_decodes_to_resolved_witness :
    rewriteAttrValue demoResolve (jstr "http://x.test/page") (jstr "/a.png") =
      proxyPrefix ++ encodeURIComponent (jstr "http://x.test/a.png") ∧
    decodeURIComponent
      ((rewriteAttrValue demoResolve (jstr "http://x.test/page") (jstr "/a.png")).drop
        proxyPrefix.length) = some (jstr "http://x.test/a.png") :=
  rewrite_decodes_to_resolved demoResolve (jstr "/a.png") (jstr "http://x.test/page")
    (jstr "http://x.test/a.png") (by decide) (by decide) (by decide)

/-- C2 counterexample: a fetch failure whose error name is neither
TimeoutError nor AbortError answers 500, not the 502 the claim states. -/
theorem proxy_non_timeout_error_not_502 :
    handleProxy (some (jstr "http://x.test/page")) demoParse
      (.err (jstr "TypeError")) = ⟨500, true⟩ ∧ (500 : Nat) ≠ 502 := by
  exact ⟨by decide, by decide⟩

/-- C2 amended: missing or falsy url parameter gives 400, unparseable
url gives 400, a scheme other than http and https gives 403, a timeout
gives 504, any other fetch failure gives 500, and a fetched response
mirrors the upstream status. -/
theorem proxy_status_taxonomy (parseUrl : JSStr → Option ParsedUrl)
    (u : JSStr) (p : ParsedUrl) (st : Nat) (nm : JSStr) (fr : FetchResult) :
    (handleProxy none parseUrl fr).status = 400 ∧
    (u ≠ [] → parseUrl u = none → (handleProxy (some u) parseUrl fr).status = 400) ∧
    (u ≠ [] → parseUrl u = some p → p.protocol ≠ jstr "http:" →
      p.protocol ≠ jstr "https:" → (handleProxy (some u) parseUrl fr).status = 403) ∧
    (u ≠ [] → parseUrl u = some p →
      (p.protocol = jstr "http:" ∨ p.protocol = jstr "https:") →
      (handleProxy (some u) parseUrl (.ok st)).status = st) ∧
    (u ≠ [] → parseUrl u = some p →
      (p.protocol = jstr "http:" ∨ p.protocol = jstr "https:") →
      (nm = jstr "TimeoutError" ∨ nm = jstr "AbortError") →
      (handleProxy (some u) parseUrl (.err nm)).status = 504) ∧
    (u ≠ [] → parseUrl u = some p →
      (p.protocol = jstr "http:" ∨ p.protocol = jstr "https:") →
      nm ≠ jstr "TimeoutError" → nm ≠ jstr "AbortError" →
      (handleProxy (some u) parseUrl (.err nm)).status = 500) := by
  refine ⟨rfl, ?_, ?_, ?_, ?_, ?_⟩
  · intro hu hp
    simp [handleProxy, hu, hp]
  · intro hu hp h1 h2
    simp [handleProxy, hu, hp, h1, h2]
  · intro hu hp hok
    have hprot : ¬ (p.protocol ≠ jstr "http:" ∧ p.protocol ≠ jstr "https:") := by
      rcases hok with h | h <;> simp [h]
    simp [handleProxy, hu, hp, hprot]
  · intro hu hp hok hnm
    have hprot : ¬ (p.protocol ≠ jstr "http:" ∧ p.protocol ≠ jstr "https:") := by
      rcases hok with h | h <;> simp [h]
    simp [handleProxy, hu, hp, hprot, hnm]
  · intro hu hp hok h1 h2
    have hprot : ¬ (p.protocol ≠ jstr "http:" ∧ p.protocol ≠ jstr "https:") := by
      rcases hok with h | h <;> simp [h]
    simp [handleProxy, hu, hp, hprot, h1, h2]

/-- C2 amended witness: each branch evaluated at concrete requests. -/
theorem proxy_status_taxonomy_witness :
    (handleProxy none demoParse (.ok 200)).status = 400 ∧
    (handleProxy (some (jstr "not a url")) demoParse (.ok 200)).status = 400 ∧
    (handleProxy (some (jstr "ftp://x.test/f")) demoParse (.ok 200)).status = 403 ∧
    (handleProxy (some (jstr "http://x.test/page")) demoParse (.ok 200)).status = 200 ∧
    (handleProxy (some (jstr "http://x.test/page")) demoParse
      (.err (jstr "TimeoutError"))).status = 504 ∧
    (handleProxy (some (jstr "http://x.test/page")) demoParse
      (.err (jstr "TypeError"))).status = 500 :=
  ⟨(proxy_status_taxonomy demoParse [] ⟨[]⟩ 200 [] (.ok 200)).1,
   (proxy_status_taxonomy demoParse (jstr "not a url") ⟨[]⟩ 200 [] (.ok 200)).2.1
     (by decide) (by decide),
   (proxy_status_taxonomy demoParse (jstr "ftp://x.test/f") ⟨jstr "ftp:"⟩ 200 []
     (.ok 200)).2.2.1 (by decide) (by decide) (by decide) (by decide),
   (proxy_status_taxonomy demoParse (jstr "http://x.test/page") ⟨jstr "http:"⟩ 200 []
     (.ok 200)).2.2.2.1 (by decide) (by decide) (by decide),
   (proxy_status_taxonomy demoParse (jstr "http://x.test/page") ⟨jstr "http:"⟩ 200
     (jstr "TimeoutError") (.ok 200)).2.2.2.2.1 (by decide) (by decide) (by decide)
     (by decide),
   (proxy_status_taxonomy demoParse (jstr "http://x.test/page") ⟨jstr "http:"⟩ 200
     (jstr "TypeError") (.ok 200)).2.2.2.2.2 (by decide) (by decide) (by decide)
     (by decide) (by decide)⟩

/-- C3 counterexample: an empty url() reference in CSS is not left
unchanged; the empty path resolves to the base URL itself and the match
is replaced with the proxied base URL. -/
theorem css_empty_url_rewritten :
    cssUrlReplace demoResolve (jstr "http://x.test/css/a.css") [] [] [] =
      jstr "url(" ++ (proxyPrefix ++
        encodeURIComponent (jstr "http://x.test/css/a.css")) ++ jstr ")" ∧
    cssUrlReplace demoResolve (jstr "http://x.test/css/a.css") [] [] [] ≠
      jstr "url()" := by
  exact ⟨by decide, by decide⟩

/-- C3 amended: the attribute rewriter returns its input unchanged on an
empty or data: reference, and the CSS and inline-style url rewriting
leaves data: references unchanged; an empty url() reference, however, is
rewritten to the proxied base URL whenever the empty reference resolves
(which WHATWG resolution always does, to the base itself). -/
theorem rewrite_inert_references (resolve : JSStr → JSStr → Option JSStr)
    (b v ws quote path : JSStr) :
    rewriteAttrValue resolve b [] = [] ∧
    (jsStartsWith (jstr "data:") v = true → rewriteAttrValue resolve b v = v) ∧
    (jsStartsWith (jstr "data:") path = true →
      cssUrlReplace resolve b ws quote path =
        jstr "url" ++ ws ++ jstr "(" ++ quote ++ path ++ quote ++ jstr ")") ∧
    (∀ a, resolve [] b = some a →
      cssUrlReplace resolve b ws quote [] =
        jstr "url(" ++ quote ++ (proxyPrefix ++ encodeURIComponent a) ++ quote ++
          jstr ")") := by
  refine ⟨?_, ?_, ?_, ?_⟩
  · rfl
  · intro hd
    unfold rewriteAttrValue
    rw [if_neg]
    simp [hd]
  · intro hd
    unfold cssUrlReplace
    rw [if_pos]
    right; right; exact hd
  · intro a ha
    unfold cssUrlReplace
    rw [if_neg, ha]
    simp [jsStartsWith, jstr, List.isPrefixOf]

/-- C3 amended witness at concrete references. -/
theorem rewrite_inert_references_witness :
    rewriteAttrValue demoResolve (jstr "http://x.test/page") [] = [] ∧
    rewriteAttrValue demoResolve (jstr "http://x.test/page")
      (jstr "data:image/png;base64,AAA") = jstr "data:image/png;base64,AAA" ∧
    cssUrlReplace demoResolve (jstr "http://x.test/page") [] []
      (jstr "data:image/png;base64,AAA") = jstr "url(data:image/png;base64,AAA)" ∧
    cssUrlReplace demoResolve (jstr "http://x.test/css/a.css") [] [] [] =
      jstr "url(" ++ (proxyPrefix ++
        encodeURIComponent (jstr "http://x.test/css/a.css")) ++ jstr ")" := by
  obtain ⟨c1, c2, c3, c4⟩ := rewrite_inert_references demoResolve
    (jstr "http://x.test/page") (jstr "data:image/png;base64,AAA") [] []
    (jstr "data:image/png;base64,AAA")
  refine ⟨c1, c2 (by decide), ?_, ?_⟩
  · have := c3 (by decide)
    simpa using this
  · obtain ⟨d1, d2, d3, d4⟩ := rewrite_inert_references demoResolve
      (jstr "http://x.test/css/a.css") [] [] [] []
    have := d4 (jstr "http://x.test/css/a.css") (by decide)
    simpa using this

/-- C4: evaluation of the style and CSS url rewriting at the failing
input.  The reference httpdocs/a.png is relative, and the comment in the
code says only absolute URLs and data URIs are skipped, yet the
startsWith http test matches it and the reference is left unrewritten. -/
theorem css_httpdocs_skipped :
    cssUrlReplace demoResolve (jstr "http://x.test/page") [] []
      (jstr "httpdocs/a.png") = jstr "url(httpdocs/a.png)" ∧
    demoResolve (jstr "httpdocs/a.png") (jstr "http://x.test/page") =
      some (jstr "http://x.test/httpdocs/a.png") := by
  exact ⟨by decide, by decide⟩

/-- C9: a header is relayed exactly when its lowercased name is not one
of the four excluded framing headers. -/
theorem relay_headers_filter (hs : List (JSStr × JSStr)) (n v : JSStr) :
    (n, v) ∈ relayHeaders hs ↔
      ((n, v) ∈ hs ∧ excludedHeader (toLowerStr n) = false) := by
  simp [relayHeaders, List.mem_filter]

/-- Removing base elements leaves a forest with no base element. -/
lemma containsBase_removeBaseList (l : List HtmlNode) :
    containsBase (removeBaseList l) = false := by
  induction l using removeBaseList.induct <;>
    simp [removeBaseList, containsBase, *]

/-- C7: the transformed document contains no base element: every base
element of the parsed tree is removed before serialization. -/
theorem transform_removes_base (resolve : JSStr → JSStr → Option JSStr)
    (styleT : JSStr → JSStr) (base : JSStr) (doc : List HtmlNode) :
    containsBase (rewriteHtmlContent resolve styleT base doc) = false := by
  unfold rewriteHtmlContent
  exact containsBase_removeBaseList _

/-- C8: every request failing validation is answered with a 4xx status
and no upstream fetch is performed. -/
theorem validation_precedes_fetch (urlParam : Option JSStr)
    (parseUrl : JSStr → Option ParsedUrl) (fr : FetchResult)
    (h : urlParam = none ∨ urlParam = some [] ∨
      (∃ u, urlParam = some u ∧ parseUrl u = none) ∨
      (∃ u p, urlParam = some u ∧ parseUrl u = some p ∧
        p.protocol ≠ jstr "http:" ∧ p.protocol ≠ jstr "https:")) :
    (handleProxy urlParam parseUrl fr).fetched = false ∧
    400 ≤ (handleProxy urlParam parseUrl fr).status ∧
    (handleProxy urlParam parseUrl fr).status < 500 := by
  rcases h with h | h | ⟨u, hu, hp⟩ | ⟨u, p, hu, hp, h1, h2⟩
  · subst h
    have e : handleProxy none parseUrl fr = ⟨400, false⟩ := rfl
    rw [e]
    exact ⟨rfl, by decide, by decide⟩
  · subst h
    have e : handleProxy (some []) parseUrl fr = ⟨400, false⟩ := rfl
    rw [e]
    exact ⟨rfl, by decide, by decide⟩
  · subst hu
    by_cases he : u = []
    · subst he
      have e : handleProxy (some []) parseUrl fr = ⟨400, false⟩ := rfl
      rw [e]
      exact ⟨rfl, by decide, by decide⟩
    · have e : handleProxy (some u) parseUrl fr = ⟨400, false⟩ := by
        simp [handleProxy, he, hp]
      rw [e]
      exact ⟨rfl, by decide, by decide⟩
  · subst hu
    by_cases he : u = []
    · subst he
      have e : handleProxy (some []) parseUrl fr = ⟨400, false⟩ := rfl
      rw [e]
      exact ⟨rfl, by decide, by decide⟩
    · have e : handleProxy (some u) parseUrl fr = ⟨403, false⟩ := by
        simp [handleProxy, he, hp, h1, h2]
      rw [e]
      exact ⟨rfl, by decide, by decide⟩

/-- C8 witness: a forbidden-scheme request is refused with 403 and the
fetch flag stays false. -/
theorem validation_precedes_fetch_witness :
    (handleProxy (some (jstr "ftp://x.test/f")) demoParse (.ok 200)).fetched = false ∧
    400 ≤ (handleProxy (some (jstr "ftp://x.test/f")) demoParse (.ok 200)).status ∧
    (handleProxy (some (jstr "ftp://x.test/f")) demoParse (.ok 200)).status < 500 :=
  validation_precedes_fetch (some (jstr "ftp://x.test/f")) demoParse (.ok 200)
    (Or.inr (Or.inr (Or.inr ⟨jstr "ftp://x.test/f", ⟨jstr "ftp:"⟩, rfl, by decide,
      by decide, by decide⟩)))


/-- C5 counterexample: a form with action /submit and method post keeps
the lowercase method post after transformation by server.js; the claim
demands POST. -/
theorem form_method_not_uppercased :
    getAttr (rewriteElemAttrs demoResolve id (jstr "http://x.test/page") (jstr "form")
      [(jstr "action", jstr "/submit"), (jstr "method", jstr "post")]) (jstr "method") =
      some (jstr "post") ∧ jstr "post" ≠ jstr "POST" := by
  exact ⟨by decide, by decide⟩

/-- C5 amended: on a rewritten form, server.js keeps the method
attribute exactly as written when present and nonempty and sets GET when
absent; the uppercasing the claim describes exists only in the part_000
revision of the handler. -/
theorem form_method_normalization (m : JSStr) (hm : m ≠ [])
    (resolve : JSStr → JSStr → Option JSStr) (styleT : JSStr → JSStr)
    (b v a : JSStr) (hv : v ≠ []) (hvd : jsStartsWith (jstr "data:") v = false)
    (ha : resolve v b = some a) :
    normalizeFormMethodServer (some m) = m ∧
    normalizeFormMethodServer none = jstr "GET" ∧
    normalizeFormMethodPart0 (some m) = m.map Char.toUpper ∧
    normalizeFormMethodPart0 none = jstr "GET" ∧
    getAttr (rewriteElemAttrs resolve styleT b (jstr "form")
      [(jstr "action", v), (jstr "method", m)]) (jstr "method") = some m ∧
    getAttr (rewriteElemAttrs resolve styleT b (jstr "form")
      [(jstr "action", v)]) (jstr "method") = some (jstr "GET") := by
  have hlen : 0 < v.length := List.length_pos.mpr hv
  refine ⟨by simp [normalizeFormMethodServer, hm], rfl,
    by simp [normalizeFormMethodPart0, hm], rfl, ?_, ?_⟩
  · simp +decide [rewriteElemAttrs, attrForTag, getAttr, setAttr, hlen, hvd, ha,
      normalizeFormMethodServer, hm]
  · simp +decide [rewriteElemAttrs, attrForTag, getAttr, setAttr, hlen, hvd, ha,
      normalizeFormMethodServer]

/-- C5 amended witness at a concrete form element. -/
theorem form_method_normalization_witness :
    normalizeFormMethodServer (some (jstr "post")) = jstr "post" ∧
    normalizeFormMethodServer none = jstr "GET" ∧
    normalizeFormMethodPart0 (some (jstr "post")) = (jstr "post").map Char.toUpper ∧
    normalizeFormMethodPart0 none = jstr "GET" ∧
    getAttr (rewriteElemAttrs demoResolve id (jstr "http://x.test/page") (jstr "form")
      [(jstr "action", jstr "/submit"), (jstr "method", jstr "post")])
      (jstr "method") = some (jstr "post") ∧
    getAttr (rewriteElemAttrs demoResolve id (jstr "http://x.test/page") (jstr "form")
      [(jstr "action", jstr "/submit")]) (jstr "method") = some (jstr "GET") :=
  form_method_normalization (jstr "post") (by decide) demoResolve id
    (jstr "http://x.test/page") (jstr "/submit") (jstr "http://x.test/submit")
    (by decide) (by decide) (by decide)

/-- C10: an attribute value that is already an absolute http or https
URL is not short-circuited: it is wrapped into the proxied form; the
already-absolute skip exists only in the style and CSS url rewriting;
and a second pass over an already-proxied attribute value wraps it
again, since a proxied value is nonempty and never starts with data:. -/
theorem absolute_attr_rewrites_again (resolve : JSStr → JSStr → Option JSStr)
    (b v a a2 ws quote path : JSStr)
    (hv : jsStartsWith (jstr "http://") v = true ∨
      jsStartsWith (jstr "https://") v = true)
    (ha : resolve v b = some a)
    (ha2 : resolve (proxyPrefix ++ encodeURIComponent a) b = some a2)
    (hp : jsStartsWith (jstr "http") path = true) :
    rewriteAttrValue resolve b v = proxyPrefix ++ encodeURIComponent a ∧
    cssUrlReplace resolve b ws quote path =
      jstr "url" ++ ws ++ jstr "(" ++ quote ++ path ++ quote ++ jstr ")" ∧
    rewriteAttrValue resolve b (rewriteAttrValue resolve b v) =
      proxyPrefix ++ encodeURIComponent a2 := by
  have hhttp : jsStartsWith (jstr "http") v = true := by
    rcases hv with h | h
    · exact jsStartsWith_trans ⟨jstr "://", by decide⟩ h
    · exact jsStartsWith_trans ⟨jstr "s://", by decide⟩ h
  have hne := startsWith_http_ne_nil hhttp
  have hnd := startsWith_http_not_data hhttp
  have h1 : rewriteAttrValue resolve b v = proxyPrefix ++ encodeURIComponent a := by
    unfold rewriteAttrValue
    rw [if_pos ⟨List.length_pos.mpr hne, hnd⟩, ha]
  refine ⟨h1, ?_, ?_⟩
  · simp only [cssUrlReplace]
    rw [if_pos (Or.inl hp)]
  · rw [h1]
    unfold rewriteAttrValue
    rw [if_pos ⟨List.length_pos.mpr (proxied_ne_nil _), proxied_not_data _⟩, ha2]

/-- C10 witness at a concrete absolute script source. -/
theorem absolute_attr_rewrites_again_witness :
    rewriteAttrValue demoResolve (jstr "http://x.test/page") (jstr "https://y.test/c.js") =
      proxyPrefix ++ encodeURIComponent (jstr "https://y.test/c.js") ∧
    cssUrlReplace demoResolve (jstr "http://x.test/page") [] []
      (jstr "https://y.test/c.js") = jstr "url(https://y.test/c.js)" ∧
    rewriteAttrValue demoResolve (jstr "http://x.test/page")
      (rewriteAttrValue demoResolve (jstr "http://x.test/page")
        (jstr "https://y.test/c.js")) =
      proxyPrefix ++ encodeURIComponent
        (jstr "http://x.test/proxy?url=https%3A%2F%2Fy.test%2Fc.js") := by
  have h := absolute_attr_rewrites_again demoResolve (jstr "http://x.test/page")
    (jstr "https://y.test/c.js") (jstr "https://y.test/c.js")
    (jstr "http://x.test/proxy?url=https%3A%2F%2Fy.test%2Fc.js") [] []
    (jstr "https://y.test/c.js") (Or.inr (by decide)) (by decide) (by decide) (by decide)
  exact ⟨h.1, by simpa using h.2.1, h.2.2⟩


/-- Unreserved characters are never whitespace. -/
lemma unreserved_not_ws (c : Char) (h : isUriUnreserved c = true) :
    isJsWs c = false := by
  simp only [isUriUnreserved, decide_eq_true_eq] at h
  have h33 : 33 ≤ c.toNat := by
    rcases h with h | h | h | h
    · omega
    · omega
    · omega
    · simp only [List.mem_cons, List.not_mem_nil, or_false] at h
      rcases h with rfl | rfl | rfl | rfl | rfl | rfl | rfl | rfl | rfl <;> decide
  cases hws : isJsWs c with
  | false => rfl
  | true =>
    simp only [isJsWs, decide_eq_true_eq] at hws
    rcases hws with rfl | rfl | rfl | rfl | rfl | rfl <;> simp at h33


/-- UTF-8 bytes are bytes. -/
lemma utf8Bytes_lt_256 (c : Char) : ∀ b ∈ utf8Bytes c, b < 256 := by
  have hval := char_toNat_valid c
  intro b hb
  simp only [utf8Bytes] at hb
  by_cases b1 : c.toNat < 0x80
  · simp [b1] at hb
    omega
  · by_cases b2 : c.toNat < 0x800
    · simp [b1, b2] at hb
      rcases hb with rfl | rfl <;> omega
    · by_cases b3 : c.toNat < 0x10000
      · simp [b1, b2, b3] at hb
        rcases hb with rfl | rfl | rfl <;> omega
      · simp [b1, b2, b3] at hb
        rcases hb with rfl | rfl | rfl | rfl <;> omega

/-- Hexadecimal digit characters are never whitespace. -/
lemma hexDigitChar_not_ws (n : Nat) (h : n < 16) : isJsWs (hexDigitChar n) = false := by
  interval_cases n <;> decide

/-- Characters of a byte escape are never whitespace. -/
lemma escapeByte_not_ws (b : Nat) (hb : b < 256) :
    ∀ c ∈ escapeByte b, isJsWs c = false := by
  intro c hc
  simp only [escapeByte, List.mem_cons, List.not_mem_nil, or_false] at hc
  rcases hc with rfl | rfl | rfl
  · decide
  · exact hexDigitChar_not_ws _ (by omega)
  · exact hexDigitChar_not_ws _ (by omega)

/-- The output of encodeURIComponent contains no whitespace. -/
lemma encode_no_ws (a : JSStr) : ∀ c ∈ encodeURIComponent a, isJsWs c = false := by
  intro c hc
  rw [encodeURIComponent, List.mem_flatten] at hc
  obtain ⟨l, hl, hcl⟩ := hc
  rw [List.mem_map] at hl
  obtain ⟨d, hd, rfl⟩ := hl
  by_cases hu : isUriUnreserved d
  · rw [encChar, if_pos hu] at hcl
    simp only [List.mem_cons, List.not_mem_nil, or_false] at hcl
    subst hcl
    exact unreserved_not_ws _ hu
  · rw [encChar, if_neg hu, List.mem_flatten] at hcl
    obtain ⟨l2, hl2, hcl2⟩ := hcl
    rw [List.mem_map] at hl2
    obtain ⟨b, hbmem, rfl⟩ := hl2
    exact escapeByte_not_ws b (utf8Bytes_lt_256 d b hbmem) c hcl2

/-- A proxied URL contains no whitespace. -/
lemma proxied_no_ws (a : JSStr) :
    ∀ c ∈ proxyPrefix ++ encodeURIComponent a, isJsWs c = false := by
  intro c hc
  rcases List.mem_append.mp hc with h | h
  · rw [show proxyPrefix = ['/', 'p', 'r', 'o', 'x', 'y', '?', 'u', 'r', 'l', '=']
      from rfl] at h
    fin_cases h <;> decide
  · exact encode_no_ws a c h

/-- Dropping whitespace from a whitespace-free list is the identity. -/
lemma dropWhile_ws_eq_self (l : JSStr) (h : ∀ c ∈ l, isJsWs c = false) :
    l.dropWhile isJsWs = l := by
  cases l with
  | nil => rfl
  | cons c m =>
    rw [List.dropWhile_cons, if_neg]
    simp [h c (by simp)]

/-- Trim is the identity on a whitespace-free list. -/
lemma trimWs_of_nows (l : JSStr) (h : ∀ c ∈ l, isJsWs c = false) : trimWs l = l := by
  unfold trimWs
  rw [dropWhile_ws_eq_self l h, dropWhile_ws_eq_self _ (by
    intro c hc
    exact h c (List.mem_reverse.mp hc)), List.reverse_reverse]

/-- Trim is the identity when both ends are not whitespace. -/
lemma trimWs_of_ends (l : JSStr)
    (h1 : ∀ c, l.head? = some c → isJsWs c = false)
    (h2 : ∀ c, l.getLast? = some c → isJsWs c = false) : trimWs l = l := by
  cases l with
  | nil => rfl
  | cons c m =>
    unfold trimWs
    rw [List.dropWhile_cons, if_neg (by simp [h1 c rfl])]
    cases hrev : (c :: m).reverse with
    | nil => simp at hrev
    | cons rc rm =>
      have hrc : isJsWs rc = false := by
        apply h2
        rw [← List.head?_reverse, hrev]
        rfl
      rw [List.dropWhile_cons, if_neg (by simp [hrc]), ← hrev, List.reverse_reverse]

/-- Trim of a whitespace-free list with one trailing space drops exactly
that space. -/
lemma trimWs_append_space (l : JSStr) (h : ∀ c ∈ l, isJsWs c = false) :
    trimWs (l ++ jstr " ") = l := by
  cases l with
  | nil => decide
  | cons c m =>
    unfold trimWs
    rw [show (c :: m) ++ jstr " " = c :: (m ++ jstr " ") from rfl]
    rw [List.dropWhile_cons, if_neg (by simp [h c (by simp)])]
    rw [show c :: (m ++ jstr " ") = (c :: m) ++ jstr " " from rfl]
    rw [List.reverse_append]
    rw [show (jstr " ").reverse = ' ' :: [] from rfl]
    rw [List.cons_append, List.dropWhile_cons, if_pos (by decide), List.nil_append]
    rw [dropWhile_ws_eq_self _ (by
      intro x hx
      exact h x (List.mem_reverse.mp hx)), List.reverse_reverse]


/-- Splitting a whitespace-free string on whitespace runs yields the
string as the single field. -/
lemma splitWsRuns_nows (d : JSStr) (h : ∀ c ∈ d, isJsWs c = false) :
    splitWsRuns d = [d] := by
  induction d with
  | nil => rfl
  | cons c t ih =>
    have hc : isJsWs c = false := h c (by simp)
    have ht := ih (fun x hx => h x (by simp [hx]))
    simp [splitWsRuns, ht, hc]

/-- One-step unfolding of the whitespace-run splitter on a cons cell. -/
lemma splitWsRuns_cons (c : Char) (t : JSStr) :
    splitWsRuns (c :: t) =
      match splitWsRuns t with
      | [] => [[]]
      | h :: r =>
        if isJsWs c then
          match t with
          | [] => [] :: h :: r
          | t0 :: _ => if isJsWs t0 then h :: r else [] :: h :: r
        else (c :: h) :: r := rfl

/-- A leading space before a whitespace-free nonempty field produces the
empty field and the field. -/
lemma splitWsRuns_space_cons (d : JSStr) (hd : ∀ c ∈ d, isJsWs c = false)
    (hdn : d ≠ []) : splitWsRuns (' ' :: d) = [[], d] := by
  cases d with
  | nil => exact absurd rfl hdn
  | cons d0 dt =>
    have h0 : isJsWs d0 = false := hd d0 (by simp)
    have ht : splitWsRuns (d0 :: dt) = [d0 :: dt] := splitWsRuns_nows _ hd
    rw [splitWsRuns_cons, ht]
    simp [h0, show isJsWs ' ' = true from by decide]

/-- Splitting a path, one space and a descriptor, all whitespace-free
and nonempty, yields exactly the two fields. -/
lemma splitWsRuns_two (p d : JSStr) (hp : ∀ c ∈ p, isJsWs c = false)
    (hd : ∀ c ∈ d, isJsWs c = false) (hpn : p ≠ []) (hdn : d ≠ []) :
    splitWsRuns (p ++ ' ' :: d) = [p, d] := by
  induction p with
  | nil => exact absurd rfl hpn
  | cons c p2 ih =>
    have hc : isJsWs c = false := hp c (by simp)
    rw [List.cons_append, splitWsRuns_cons]
    cases hp2 : p2 with
    | nil =>
      subst hp2
      rw [List.nil_append, splitWsRuns_space_cons d hd hdn]
      simp [hc]
    | cons q p3 =>
      have hne2 : p2 ≠ [] := by simp [hp2]
      have hrec := ih (fun x hx => hp x (by simp [hx])) hne2
      rw [← hp2, hrec]
      simp [hc, hp2]


/-- The head of an append with a whitespace-free nonempty left part is
not whitespace. -/
lemma no_ws_head (l x : JSStr) (hl : ∀ c ∈ l, isJsWs c = false) (hn : l ≠ []) :
    ∀ c, (l ++ x).head? = some c → isJsWs c = false := by
  intro c hc
  cases l with
  | nil => exact absurd rfl hn
  | cons l0 lt =>
    simp at hc
    subst hc
    exact hl _ (by simp)

/-- The last element of an append with a whitespace-free nonempty right
part is not whitespace. -/
lemma no_ws_last (x d : JSStr) (hd : ∀ c ∈ d, isJsWs c = false) (hn : d ≠ []) :
    ∀ c, (x ++ d).getLast? = some c → isJsWs c = false := by
  intro c hc
  rw [← List.head?_reverse, List.reverse_append] at hc
  exact no_ws_head d.reverse x.reverse (fun y hy => hd y (List.mem_reverse.mp hy))
    (by simp [hn]) c hc

/-- A srcset entry of a whitespace-free path and descriptor separated by
one space is rewritten to the proxied path, one space and the untouched
descriptor. -/
lemma srcsetEntry_path_descriptor (resolve : JSStr → JSStr → Option JSStr)
    (base p d a : JSStr)
    (hp : ∀ c ∈ p, isJsWs c = false) (hpn : p ≠ [])
    (hpd : jsStartsWith (jstr "data:") p = false)
    (hd : ∀ c ∈ d, isJsWs c = false) (hdn : d ≠ [])
    (ha : resolve p base = some a) :
    srcsetEntry resolve base (p ++ jstr " " ++ d) =
      (proxyPrefix ++ encodeURIComponent a) ++ jstr " " ++ d := by
  have e0 : p ++ jstr " " ++ d = p ++ ' ' :: d := by
    rw [show jstr " " = [' '] from rfl]
    simp
  have tr1 : trimWs (p ++ ' ' :: d) = p ++ ' ' :: d := by
    apply trimWs_of_ends
    · exact no_ws_head p (' ' :: d) hp hpn
    · intro c hc
      rw [show p ++ ' ' :: d = (p ++ [' ']) ++ d from by simp] at hc
      exact no_ws_last (p ++ [' ']) d hd hdn c hc
  have hsplit := splitWsRuns_two p d hp hd hpn hdn
  have tr2 : trimWs ((proxyPrefix ++ encodeURIComponent a) ++ jstr " " ++ d) =
      (proxyPrefix ++ encodeURIComponent a) ++ jstr " " ++ d := by
    apply trimWs_of_ends
    · rw [List.append_assoc]
      exact no_ws_head (proxyPrefix ++ encodeURIComponent a) _ (proxied_no_ws a)
        (proxied_ne_nil _)
    · exact no_ws_last ((proxyPrefix ++ encodeURIComponent a) ++ jstr " ") d hd hdn
  rw [e0]
  simp only [srcsetEntry]
  rw [tr1, hsplit]
  simp only [List.headD_cons, List.tail_cons]
  rw [if_neg (by simp [hpd])]
  simp only [ha]
  rw [show List.intercalate (jstr " ") [d] = d from by simp [List.intercalate]]
  exact tr2

/-- A srcset entry holding only a whitespace-free path is rewritten to
the proxied path alone, the template space being trimmed away. -/
lemma srcsetEntry_path_only (resolve : JSStr → JSStr → Option JSStr)
    (base p a : JSStr)
    (hp : ∀ c ∈ p, isJsWs c = false) (hpn : p ≠ [])
    (hpd : jsStartsWith (jstr "data:") p = false)
    (ha : resolve p base = some a) :
    srcsetEntry resolve base p = proxyPrefix ++ encodeURIComponent a := by
  have tr1 : trimWs p = p := trimWs_of_nows p hp
  have hsplit := splitWsRuns_nows p hp
  simp only [srcsetEntry]
  rw [tr1, hsplit]
  simp only [List.headD_cons, List.tail_cons]
  rw [if_neg (by simp [hpd])]
  simp only [ha]
  rw [show List.intercalate (jstr " ") ([] : List JSStr) = [] from rfl]
  rw [show proxyPrefix ++ encodeURIComponent a ++ jstr " " ++ ([] : JSStr) =
    (proxyPrefix ++ encodeURIComponent a) ++ jstr " " from by simp]
  exact trimWs_append_space _ (proxied_no_ws a)

/-- C6: the srcset rewriting splits the attribute value on commas,
rewrites each entry separately and rejoins with a comma and a space; an
entry whose path component starts with data: passes through unchanged;
and an entry made of a path and a descriptor keeps its descriptor
untouched while only the path is replaced by its proxied form. -/
theorem srcset_rewrite_shape (resolve : JSStr → JSStr → Option JSStr)
    (base s e p d a : JSStr)
    (hp : ∀ c ∈ p, isJsWs c = false) (hpn : p ≠ [])
    (hpd : jsStartsWith (jstr "data:") p = false)
    (hd : ∀ c ∈ d, isJsWs c = false) (hdn : d ≠ [])
    (ha : resolve p base = some a) :
    srcsetRewrite resolve base s =
      List.intercalate (jstr ", ") ((splitOnChar ',' s).map (srcsetEntry resolve base)) ∧
    (jsStartsWith (jstr "data:") ((splitWsRuns (trimWs e)).headD []) = true →
      srcsetEntry resolve base e = e) ∧
    srcsetEntry resolve base (p ++ jstr " " ++ d) =
      (proxyPrefix ++ encodeURIComponent a) ++ jstr " " ++ d ∧
    srcsetEntry resolve base p = proxyPrefix ++ encodeURIComponent a := by
  refine ⟨rfl, ?_, ?_, ?_⟩
  · intro hdata
    simp only [srcsetEntry]
    rw [if_pos hdata]
  · exact srcsetEntry_path_descriptor resolve base p d a hp hpn hpd hd hdn ha
  · exact srcsetEntry_path_only resolve base p a hp hpn hpd ha

/-- C6 witness at a concrete srcset attribute. -/
theorem srcset_rewrite_shape_witness :
    srcsetRewrite demoResolve (jstr "http://x.test/page") (jstr "a.png 2x, b.png") =
      List.intercalate (jstr ", ")
        ((splitOnChar ',' (jstr "a.png 2x, b.png")).map
          (srcsetEntry demoResolve (jstr "http://x.test/page"))) ∧
    (jsStartsWith (jstr "data:")
        ((splitWsRuns (trimWs (jstr " data:img 1x"))).headD []) = true →
      srcsetEntry demoResolve (jstr "http://x.test/page") (jstr " data:img 1x") =
        jstr " data:img 1x") ∧
    srcsetEntry demoResolve (jstr "http://x.test/page")
        (jstr "a.png" ++ jstr " " ++ jstr "2x") =
      (proxyPrefix ++ encodeURIComponent (jstr "http://x.test/a.png")) ++
        jstr " " ++ jstr "2x" ∧
    srcsetEntry demoResolve (jstr "http://x.test/page") (jstr "a.png") =
      proxyPrefix ++ encodeURIComponent (jstr "http://x.test/a.png") :=
  srcset_rewrite_shape demoResolve (jstr "http://x.test/page") (jstr "a.png 2x, b.png")
    (jstr " data:img 1x") (jstr "a.png") (jstr "2x") (jstr "http://x.test/a.png")
    (by decide) (by decide) (by decide) (by decide) (by decide) (by decide)

end ProxyYuyu
